import Mathlib

/-!
Shallow embedding of the codec layer of `hnswlib-wasm-node` (`src/index.js`):
the JSON (text) codec (`saveIndexJSON` / `loadIndexJSON`), the binary codec
(`saveIndexBinary` / `loadIndexBinary`), the adapter validation
(`validateIndex`) and the logger configuration (`setLogger`).

Modelling conventions:
* Byte buffers are `List Nat`, each entry one byte.
* 32-bit floats are modelled by their IEEE-754 binary32 bit pattern, a `Nat`
  below `2 ^ 32`.  `buffer.writeFloatLE v` stores the four little-endian bytes
  of the bit pattern of `v`; `buffer.readFloatLE` reads them back, so a
  round trip at 32-bit float precision is bit-pattern equality.  The
  JavaScript `isFinite` test corresponds to the exponent bits of the pattern
  not being all ones (`isFiniteBits`).
* JavaScript's `x || d` default (which replaces *falsy* values, i.e. both a
  missing field and the number `0`) is modelled by `jsOr` on `Option Nat`
  (`none` = absent key, `some 0` = key present with value `0`) and `jsOrStr`
  on `Option String` (the empty string is falsy).
* The JSON text itself is not modelled: `JSON.parse ∘ JSON.stringify` is the
  identity on the document values used here, so the text codec is embedded as
  functions to and from a document value `JsonDoc`.  Fields whose JavaScript
  type is checked at runtime (`label`, `point`, the `vectors` array) use sum
  types recording whether the value has the expected type.
* `loadIndexJSON` also returns the trace of operations it performed on the
  target index (`IndexOp`), since the JavaScript code interleaves per-record
  validation with `addPoint` calls.
-/

/-- JavaScript `v || d` for an optional numeric field: `undefined` and `0`
are falsy and give the default. -/
def jsOr (v : Option Nat) (d : Nat) : Nat :=
  match v with
  | none => d
  | some x => if x = 0 then d else x

/-- JavaScript `v || d` for an optional string field: `undefined` and `""`
are falsy and give the default. -/
def jsOrStr (v : Option String) (d : String) : String :=
  match v with
  | none => d
  | some s => if s = "" then d else s

/-- The four little-endian bytes of `n % 2 ^ 32` (`buffer.writeUInt32LE`). -/
def u32LE (n : Nat) : List Nat :=
  [n % 256, n / 256 % 256, n / 65536 % 256, n / 16777216 % 256]

/-- Read four little-endian bytes from the front of a list
(missing bytes read as 0; every use in the codec is bounds-checked first). -/
def le4 (l : List Nat) : Nat :=
  l.getD 0 0 + 256 * (l.getD 1 0 + 256 * (l.getD 2 0 + 256 * (l.getD 3 0)))

/-- `buffer.readUInt32LE(off)` (and, on bit patterns, `buffer.readFloatLE`). -/
def readU32 (buf : List Nat) (off : Nat) : Nat :=
  le4 (buf.drop off)

/-- `buffer.readUInt8(off)`. -/
def byteAt (buf : List Nat) (off : Nat) : Nat :=
  buf.getD off 0

/-- The exponent bits of an IEEE-754 binary32 pattern are not all ones:
the JavaScript `isFinite` test on the stored value. -/
def isFiniteBits (b : Nat) : Bool :=
  decide (b / 8388608 % 256 ≠ 255)

/-- One `{label, point}` record (`point` entries are binary32 bit patterns). -/
structure VectorRecord where
  label : Nat
  point : List Nat
deriving DecidableEq, Repr

/-- The metadata returned by both load paths. -/
structure Metadata where
  spaceName : String
  numDimensions : Nat
  maxElements : Nat
  m : Nat
  efConstruction : Nat
  randomSeed : Nat
deriving DecidableEq, Repr

/-- The caller-supplied `metadata` argument of the save path: a JavaScript
object whose five recognised keys may each be absent. -/
structure MetaInput where
  spaceName : Option String
  maxElements : Option Nat
  m : Option Nat
  efConstruction : Option Nat
  randomSeed : Option Nat
deriving DecidableEq, Repr

/- ----------------------------------------------------------------
   validateIndex (src/index.js lines 99-109)
   ---------------------------------------------------------------- -/

/-- Which operations an index object exposes as functions.  The seven fields
are the seven operations of the adapter interface; `validateIndex` inspects
only the first four. -/
structure IndexCapabilities where
  getNumDimensions : Bool
  getCurrentCount : Bool
  getUsedLabels : Bool
  getPoint : Bool
  addPoint : Bool
  initIndex : Bool
  getMaxElements : Bool
deriving DecidableEq, Repr

inductive ValidationError where
  | indexRequired
  | missingMethods
deriving DecidableEq, Repr

/-- `validateIndex(index)`: `none` models a missing/null index argument. -/
def validateIndex (index : Option IndexCapabilities) : Except ValidationError Unit :=
  match index with
  | none => .error .indexRequired
  | some i =>
      if i.getNumDimensions && i.getCurrentCount && i.getUsedLabels && i.getPoint then
        .ok ()
      else
        .error .missingMethods

/- ----------------------------------------------------------------
   setLogger (src/index.js lines 10-23)
   ---------------------------------------------------------------- -/

/-- A log function; `custom i` tags distinct caller-supplied functions. -/
inductive LogFun where
  | noop
  | consoleError
  | custom (i : Nat)
deriving DecidableEq, Repr

/-- The module-level `logger` slot. -/
structure LoggerState where
  log : LogFun
  error : LogFun
deriving DecidableEq, Repr

/-- `defaultLogger = { log: () => {}, error: console.error }`. -/
def defaultLogger : LoggerState :=
  { log := .noop, error := .consoleError }

/-- A caller-supplied logger object; each key may be absent. -/
structure PartialLogger where
  log : Option LogFun
  error : Option LogFun
deriving DecidableEq, Repr

/-- `setLogger(c)` sets `logger = { ...defaultLogger, ...c }`: spread of the
argument over the defaults, ignoring the previous state. -/
def setLogger (c : PartialLogger) (_prev : LoggerState) : LoggerState :=
  { log := c.log.getD defaultLogger.log,
    error := c.error.getD defaultLogger.error }

/- ----------------------------------------------------------------
   JSON codec (src/index.js lines 171-190 and 292-354)
   ---------------------------------------------------------------- -/

/-- A record's `label` field: either a JavaScript number or a value of some
other type (the tag names the kind, e.g. a string).  `loadIndexJSON` checks
`typeof label !== 'number'`. -/
inductive JLabel where
  | num (n : Nat)
  | nonNumeric (tag : String)
deriving DecidableEq, Repr

/-- A record's `point` field: either an array of numbers (binary32 bit
patterns) or a value of some other type.  `loadIndexJSON` checks
`!Array.isArray(point)`. -/
inductive JPoint where
  | arr (xs : List Nat)
  | nonArray (tag : String)
deriving DecidableEq, Repr

/-- One entry of the document's `vectors` array. -/
structure JsonVector where
  label : JLabel
  point : JPoint
deriving DecidableEq, Repr

/-- The parsed JSON document.  `none` on a field models a missing key (or,
for `vectors` and `numDimensions`, a value failing the type test, which the
code treats the same way).  `numVectors` is written by the encoder but never
read by the decoder. -/
structure JsonDoc where
  version : Option Nat
  spaceName : Option String
  numDimensions : Option Nat
  maxElements : Option Nat
  m : Option Nat
  efConstruction : Option Nat
  randomSeed : Option Nat
  numVectors : Option Nat
  vectors : Option (List JsonVector)
deriving DecidableEq, Repr

/-- The distinct failure sites of `loadIndexJSON` after parsing. -/
inductive JsonError where
  | missingVectors
  | invalidNumDimensions
  | invalidSpaceName (s : String)
  | invalidLabel
  | invalidVector (dims : Nat)
deriving DecidableEq, Repr

/-- Operations performed on the target index during load, in order. -/
inductive IndexOp where
  | create (spaceName : String) (dims : Nat)
  | init (maxElements m efConstruction randomSeed : Nat)
  | add (label : Nat) (point : List Nat)
deriving DecidableEq, Repr

/-- The per-record loop of `loadIndexJSON` (lines 328-336): for each record,
check the label is numeric, check the point is an array of length
`dims`, then call `index.addPoint(point, label, false)`; the first invalid
record aborts the loop.  Returns the `addPoint` calls performed and either
the decoded records or the error. -/
def processVectors (dims : Nat) :
    List JsonVector → List IndexOp × Except JsonError (List VectorRecord)
  | [] => ([], .ok [])
  | v :: rest =>
    match v.label with
    | .nonNumeric _ => ([], .error .invalidLabel)
    | .num l =>
      match v.point with
      | .nonArray _ => ([], .error (.invalidVector dims))
      | .arr p =>
        if p.length = dims then
          let r := processVectors dims rest
          (.add l p :: r.1, r.2.map fun recs => ⟨l, p⟩ :: recs)
        else
          ([], .error (.invalidVector dims))

/-- `loadIndexJSON` on an already-parsed document: structural checks
(`vectors` array, `numDimensions`, `spaceName`) first, then index creation
and initialization, then the per-record loop.  The first component is the
trace of index operations performed (also on failure). -/
def loadIndexJSON (doc : JsonDoc) :
    List IndexOp × Except JsonError (Metadata × List VectorRecord) :=
  match doc.vectors with
  | none => ([], .error .missingVectors)
  | some vs =>
    match doc.numDimensions with
    | none => ([], .error .invalidNumDimensions)
    | some dims =>
      if dims = 0 then ([], .error .invalidNumDimensions)
      else
        match doc.spaceName with
        | none => ([], .error (.invalidSpaceName "undefined"))
        | some sn =>
          if sn = "l2" ∨ sn = "ip" ∨ sn = "cosine" then
            let maxElements := jsOr doc.maxElements 100
            let m := jsOr doc.m 16
            let efConstruction := jsOr doc.efConstruction 200
            let randomSeed := jsOr doc.randomSeed 100
            let r := processVectors dims vs
            (.create sn dims :: .init maxElements m efConstruction randomSeed :: r.1,
             r.2.map fun recs =>
               ({ spaceName := sn, numDimensions := dims,
                  maxElements := maxElements, m := m,
                  efConstruction := efConstruction, randomSeed := randomSeed },
                recs))
          else ([], .error (.invalidSpaceName sn))

/-- `saveIndexJSON` (lines 171-190): the document written to disk.
`indexMaxElements` is the value of `index.getMaxElements()`, used when the
caller's metadata has no (truthy) `maxElements`. -/
def saveIndexJSON (metadata : MetaInput) (indexMaxElements numDimensions : Nat)
    (vectors : List VectorRecord) : JsonDoc :=
  { version := some 1,
    spaceName := some (jsOrStr metadata.spaceName "l2"),
    numDimensions := some numDimensions,
    maxElements := some (jsOr metadata.maxElements indexMaxElements),
    m := some (jsOr metadata.m 16),
    efConstruction := some (jsOr metadata.efConstruction 200),
    randomSeed := some (jsOr metadata.randomSeed 100),
    numVectors := some vectors.length,
    vectors := some (vectors.map fun r => ⟨.num r.label, .arr r.point⟩) }

/- ----------------------------------------------------------------
   Binary codec (src/index.js lines 201-248 and 363-453)
   ---------------------------------------------------------------- -/

/-- `spaceNameMap[name] || 0` with `spaceNameMap = {l2:0, ip:1, cosine:2}`:
an unrecognised name maps to 0. -/
def spaceCode (name : String) : Nat :=
  if name = "ip" then 1 else if name = "cosine" then 2 else 0

/-- The failure sites of `saveIndexBinary`: the explicit dimension and
finiteness checks (lines 231, 236) and the implicit range check of
`buffer.writeUInt32LE`. -/
inductive SaveError where
  | dimMismatch (expected got : Nat)
  | invalidValue (bits : Nat)
  | u32Range (v : Nat)
deriving DecidableEq, Repr

/-- `buffer.writeUInt32LE(n)`: throws a RangeError unless `0 ≤ n < 2^32`. -/
def writeU32 (n : Nat) : Except SaveError (List Nat) :=
  if n < 4294967296 then .ok (u32LE n) else .error (.u32Range n)

/-- The inner loop of `saveIndexBinary` over one point: check each component
is finite, then `writeFloatLE` it (four little-endian bytes of the binary32
pattern; `writeFloatLE` itself never throws). -/
def encodePoint : List Nat → Except SaveError (List Nat)
  | [] => .ok []
  | v :: rest =>
    if isFiniteBits v then
      (encodePoint rest).map fun bs => u32LE v ++ bs
    else .error (.invalidValue v)

/-- One record of the binary body: length check, 4-byte label, then the
point components. -/
def encodeVector (numDimensions : Nat) (r : VectorRecord) :
    Except SaveError (List Nat) :=
  if r.point.length ≠ numDimensions then
    .error (.dimMismatch numDimensions r.point.length)
  else do
    let lbl ← writeU32 r.label
    let pt ← encodePoint r.point
    .ok (lbl ++ pt)

/-- The record loop of `saveIndexBinary`. -/
def encodeVectors (numDimensions : Nat) :
    List VectorRecord → Except SaveError (List Nat)
  | [] => .ok []
  | r :: rest => do
    let v ← encodeVector numDimensions r
    let vs ← encodeVectors numDimensions rest
    .ok (v ++ vs)

/-- `saveIndexBinary` (lines 201-248): the byte sequence written to disk.
Header: version byte, space code byte, five u32 fields, u32 vector count,
14 reserved zero bytes; then the records.  The whole buffer is built before
any write reaches the file. -/
def saveIndexBinary (metadata : MetaInput) (indexMaxElements numDimensions : Nat)
    (vectors : List VectorRecord) : Except SaveError (List Nat) := do
  let code := spaceCode (jsOrStr metadata.spaceName "l2")
  let hDims ← writeU32 numDimensions
  let hMax ← writeU32 (jsOr metadata.maxElements indexMaxElements)
  let hM ← writeU32 (jsOr metadata.m 16)
  let hEf ← writeU32 (jsOr metadata.efConstruction 200)
  let hSeed ← writeU32 (jsOr metadata.randomSeed 100)
  let hNum ← writeU32 vectors.length
  let body ← encodeVectors numDimensions vectors
  .ok ([1, code] ++ hDims ++ hMax ++ hM ++ hEf ++ hSeed ++ hNum
        ++ List.replicate 14 0 ++ body)

/-- The failure sites of `loadIndexBinary`, in source order. -/
inductive BinError where
  | tooSmall (len : Nat)
  | badVersion (v : Nat)
  | headerEof
  | badNumDimensions (d : Nat)
  | badNumVectors (n : Nat)
  | sizeMismatch (expected actual : Nat)
  | eofVector (i : Nat)
  | eofDim (i j : Nat)
deriving DecidableEq, Repr

/-- The inner loop of `loadIndexBinary` over one point (lines 427-433):
before each 4-byte read check `offset + 4 > buffer.length`, naming vector
`i` and dimension `j` on failure.  `rem` counts the reads still to do. -/
def readPointAux (buf : List Nat) (i : Nat) :
    Nat → Nat → Nat → Except BinError (List Nat)
  | _, _, 0 => .ok []
  | off, j, rem + 1 =>
    if off + 4 > buf.length then .error (.eofDim i j)
    else
      (readPointAux buf i (off + 4) (j + 1) rem).map fun xs =>
        readU32 buf off :: xs

/-- The record loop of `loadIndexBinary` (lines 421-435): check 4 bytes
remain, read the label, read the point, recurse.  `i` is the index of the
current record, `rem` the number still to read. -/
def readVectorsAux (buf : List Nat) (dims : Nat) :
    Nat → Nat → Nat → Except BinError (List VectorRecord)
  | _, _, 0 => .ok []
  | i, off, rem + 1 =>
    if off + 4 > buf.length then .error (.eofVector i)
    else do
      let point ← readPointAux buf i (off + 4) 0 dims
      let rest ← readVectorsAux buf dims (i + 1) (off + 4 + 4 * dims) rem
      .ok (⟨readU32 buf off, point⟩ :: rest)

/-- `loadIndexBinary` (lines 363-453) on the bytes read from the file.  The
two mid-header EOF checks of the source are kept although they can never
fire once `length ≥ 40` holds. -/
def loadIndexBinary (buf : List Nat) :
    Except BinError (Metadata × List VectorRecord) :=
  if buf.length < 40 then .error (.tooSmall buf.length)
  else
    let version := byteAt buf 0
    if version ≠ 1 then .error (.badVersion version)
    else if 1 ≥ buf.length then .error .headerEof
    else
      let spaceNameCode := byteAt buf 1
      let spaceName :=
        if spaceNameCode = 0 then "l2"
        else if spaceNameCode = 1 then "ip"
        else if spaceNameCode = 2 then "cosine"
        else "l2"
      if 2 + 24 > buf.length then .error .headerEof
      else
        let numDimensions := readU32 buf 2
        let maxElements := readU32 buf 6
        let m := readU32 buf 10
        let efConstruction := readU32 buf 14
        let randomSeed := readU32 buf 18
        let numVectors := readU32 buf 22
        if numDimensions = 0 ∨ numDimensions > 100000 then
          .error (.badNumDimensions numDimensions)
        else if numVectors > 100000000 then
          .error (.badNumVectors numVectors)
        else
          let vectorSize := 4 + numDimensions * 4
          let expectedSize := 40 + numVectors * vectorSize
          if buf.length < expectedSize then
            .error (.sizeMismatch expectedSize buf.length)
          else
            (readVectorsAux buf numDimensions 0 40 numVectors).map
              fun recs =>
                ({ spaceName := spaceName, numDimensions := numDimensions,
                   maxElements := maxElements, m := m,
                   efConstruction := efConstruction,
                   randomSeed := randomSeed }, recs)

/-- The expected total size `40 + numVectors * (4 + 4*numDimensions)` read
off a buffer's own header. -/
def expectedSizeOf (buf : List Nat) : Nat :=
  40 + readU32 buf 22 * (4 + readU32 buf 2 * 4)

/- ----------------------------------------------------------------
   Auxiliary definitions for the theorems
   ---------------------------------------------------------------- -/

/-- A fully-specified metadata value passed as the save path's `metadata`
argument (every key present). -/
def metaToInput (meta : Metadata) : MetaInput :=
  { spaceName := some meta.spaceName, maxElements := some meta.maxElements,
    m := some meta.m, efConstruction := some meta.efConstruction,
    randomSeed := some meta.randomSeed }

/-- The body of the binary encoding: per record a 4-byte label and the
point's binary32 patterns, four bytes each. -/
def binBody (vecs : List VectorRecord) : List Nat :=
  vecs.flatMap fun r => u32LE r.label ++ r.point.flatMap u32LE

/-- A record of the JSON document passes the per-record checks of
`loadIndexJSON`: numeric label and a point array of length `dims`. -/
def validJVec (dims : Nat) (v : JsonVector) : Bool :=
  match v.label, v.point with
  | .num _, .arr p => p.length = dims
  | _, _ => false

/-- A JSON document declaring `numVectors = 5` but carrying one vector. -/
def docC3 : JsonDoc :=
  { version := some 1, spaceName := some "l2", numDimensions := some 1,
    maxElements := none, m := none, efConstruction := none,
    randomSeed := none, numVectors := some 5,
    vectors := some [⟨.num 7, .arr [0]⟩] }

/-- A JSON document whose `m` key is present with value `0`. -/
def docC4 : JsonDoc :=
  { version := some 1, spaceName := some "l2", numDimensions := some 1,
    maxElements := some 10, m := some 0, efConstruction := some 200,
    randomSeed := some 100, numVectors := some 1,
    vectors := some [⟨.num 0, .arr [5]⟩] }

/-- A JSON document whose second record has a non-numeric label. -/
def docC5 : JsonDoc :=
  { version := some 1, spaceName := some "l2", numDimensions := some 1,
    maxElements := none, m := none, efConstruction := none,
    randomSeed := none, numVectors := some 2,
    vectors := some [⟨.num 7, .arr [0]⟩, ⟨.nonNumeric "string", .arr [1]⟩] }

/- ----------------------------------------------------------------
   Theorems: C2 and C10
   ---------------------------------------------------------------- -/

/-- C2 counterexample: an adapter exposing only the four read operations
(dimension query, count query, label enumeration, point retrieval) but
missing point insertion, initialization and capacity query passes
`validateIndex`, so validation does not fail for every adapter lacking one
of the seven operations. -/
theorem C2_cex :
    validateIndex (some
      { getNumDimensions := true, getCurrentCount := true,
        getUsedLabels := true, getPoint := true,
        addPoint := false, initIndex := false, getMaxElements := false })
      = .ok () := by
  rfl

/-- C2 (amended): the save path's adapter validation fails exactly when the
adapter is absent or does not expose all four read operations (dimension
query, count query, label enumeration, point retrieval); absence of point
insertion, initialization or capacity query is not detected. -/
theorem C2_validateIndex_checks_four (i : IndexCapabilities) :
    (validateIndex (some i) = .ok () ↔
      i.getNumDimensions ∧ i.getCurrentCount ∧ i.getUsedLabels ∧ i.getPoint) ∧
    validateIndex none = .error .indexRequired := by
  constructor
  · simp only [validateIndex]
    constructor
    · intro h
      by_cases h1 : i.getNumDimensions <;>
        by_cases h2 : i.getCurrentCount <;>
          by_cases h3 : i.getUsedLabels <;>
            by_cases h4 : i.getPoint <;>
              simp_all
    · intro ⟨h1, h2, h3, h4⟩
      simp [h1, h2, h3, h4]
  · rfl

/-- C10: each `setLogger` call merges its argument with the built-in default
logger, not with the previously configured logger: a missing `log` falls back
to the no-op, a missing `error` to `console.error`, whatever the previous
state was; in particular `setLogger({error})` after `setLogger({log})`
discards the earlier `log`. -/
theorem C10_setLogger_merges_defaults :
    (∀ (c : PartialLogger) (s : LoggerState),
      (setLogger c s).log = c.log.getD .noop ∧
      (setLogger c s).error = c.error.getD .consoleError) ∧
    (∀ (f e : LogFun) (s : LoggerState),
      setLogger ⟨none, some e⟩ (setLogger ⟨some f, none⟩ s)
        = { log := .noop, error := e }) := by
  constructor
  · intro c s
    exact ⟨rfl, rfl⟩
  · intro f e s
    rfl

/- ----------------------------------------------------------------
   Byte-level lemmas
   ---------------------------------------------------------------- -/

theorem length_u32LE (n : Nat) : (u32LE n).length = 4 := rfl

theorem le4_u32LE (n : Nat) (l : List Nat) (h : n < 4294967296) :
    le4 (u32LE n ++ l) = n := by
  show n % 256 + 256 * (n / 256 % 256 + 256 * (n / 65536 % 256
    + 256 * (n / 16777216 % 256))) = n
  omega

theorem drop4_u32LE (n : Nat) (l : List Nat) : (u32LE n ++ l).drop 4 = l := rfl

theorem length_flatMap_u32LE (p : List Nat) :
    (p.flatMap u32LE).length = 4 * p.length := by
  induction p with
  | nil => rfl
  | cons c p ih => simp [List.flatMap_cons, length_u32LE, ih]; omega

theorem binBody_length (dims : Nat) (vecs : List VectorRecord)
    (h : ∀ r ∈ vecs, r.point.length = dims) :
    (binBody vecs).length = vecs.length * (4 + 4 * dims) := by
  induction vecs with
  | nil => simp [binBody]
  | cons r vs ih =>
    have hr := h r (by simp)
    have ihv := ih (fun x hx => h x (by simp [hx]))
    rw [show binBody (r :: vs)
        = (u32LE r.label ++ r.point.flatMap u32LE) ++ binBody vs by
      simp [binBody, List.flatMap_cons]]
    rw [List.length_append, List.length_append, length_u32LE,
      length_flatMap_u32LE, hr, ihv, List.length_cons]
    ring

/- ----------------------------------------------------------------
   Binary encoder lemmas
   ---------------------------------------------------------------- -/

theorem writeU32_ok (n : Nat) (h : n < 4294967296) :
    writeU32 n = .ok (u32LE n) := by
  simp [writeU32, h]

theorem writeU32_ok_length (n : Nat) (l : List Nat) (h : writeU32 n = .ok l) :
    l.length = 4 := by
  unfold writeU32 at h
  split at h
  · cases h; rfl
  · cases h

theorem encodePoint_ok (p : List Nat) (h : ∀ c ∈ p, isFiniteBits c = true) :
    encodePoint p = .ok (p.flatMap u32LE) := by
  induction p with
  | nil => rfl
  | cons c p ih =>
    have hc := h c (by simp)
    simp [encodePoint, hc, ih (fun x hx => h x (by simp [hx])),
      Except.map, List.flatMap_cons]

theorem encodePoint_ok_length (p bs : List Nat) (h : encodePoint p = .ok bs) :
    bs.length = 4 * p.length := by
  induction p generalizing bs with
  | nil => cases h; rfl
  | cons c p ih =>
    simp only [encodePoint] at h
    by_cases hc : isFiniteBits c
    · rw [if_pos hc] at h
      cases he : encodePoint p with
      | error e => rw [he] at h; simp [Except.map] at h
      | ok bs' =>
        rw [he] at h
        simp only [Except.map, Except.ok.injEq] at h
        subst h
        simp [length_u32LE, ih bs' he]
        omega
    · rw [if_neg hc] at h; cases h

theorem encodeVector_ok (dims : Nat) (r : VectorRecord)
    (hlen : r.point.length = dims) (hlab : r.label < 4294967296)
    (hfin : ∀ c ∈ r.point, isFiniteBits c = true) :
    encodeVector dims r = .ok (u32LE r.label ++ r.point.flatMap u32LE) := by
  simp [encodeVector, hlen, writeU32_ok r.label hlab, encodePoint_ok r.point hfin,
    bind, Except.bind]

theorem encodeVector_ok_length (dims : Nat) (r : VectorRecord) (bs : List Nat)
    (h : encodeVector dims r = .ok bs) : bs.length = 4 + 4 * dims := by
  unfold encodeVector at h
  split at h
  · cases h
  · rename_i hlen
    rw [not_ne_iff] at hlen
    simp only [bind, Except.bind] at h
    cases hw : writeU32 r.label with
    | error e => rw [hw] at h; cases h
    | ok lbl =>
      rw [hw] at h
      cases hp : encodePoint r.point with
      | error e => rw [hp] at h; cases h
      | ok pt =>
        rw [hp] at h
        cases h
        have h1 := writeU32_ok_length r.label lbl hw
        have h2 := encodePoint_ok_length r.point pt hp
        simp [h1, h2, hlen]

theorem encodeVectors_ok (dims : Nat) (vecs : List VectorRecord)
    (h : ∀ r ∈ vecs, r.point.length = dims ∧ r.label < 4294967296 ∧
      ∀ c ∈ r.point, isFiniteBits c = true) :
    encodeVectors dims vecs = .ok (binBody vecs) := by
  induction vecs with
  | nil => rfl
  | cons r vs ih =>
    obtain ⟨h1, h2, h3⟩ := h r (by simp)
    simp [encodeVectors, encodeVector_ok dims r h1 h2 h3,
      ih (fun x hx => h x (by simp [hx])), bind, Except.bind, binBody,
      List.flatMap_cons]

theorem encodeVectors_ok_length (dims : Nat) (vecs : List VectorRecord)
    (bs : List Nat) (h : encodeVectors dims vecs = .ok bs) :
    bs.length = vecs.length * (4 + 4 * dims) := by
  induction vecs generalizing bs with
  | nil => cases h; simp
  | cons r vs ih =>
    simp only [encodeVectors, bind, Except.bind] at h
    cases hv : encodeVector dims r with
    | error e => rw [hv] at h; cases h
    | ok v =>
      rw [hv] at h
      cases hvs : encodeVectors dims vs with
      | error e => rw [hvs] at h; cases h
      | ok rest =>
        rw [hvs] at h
        cases h
        simp [encodeVector_ok_length dims r v hv, ih rest hvs]
        ring

/- ----------------------------------------------------------------
   Binary decoder lemmas
   ---------------------------------------------------------------- -/

theorem readPointAux_ok (buf : List Nat) (i : Nat) :
    ∀ (p : List Nat) (off j : Nat) (tail : List Nat),
      buf.drop off = p.flatMap u32LE ++ tail →
      (∀ c ∈ p, c < 4294967296) →
      readPointAux buf i off j p.length = .ok p := by
  intro p
  induction p with
  | nil => intro off j tail _ _; rfl
  | cons c p ih =>
    intro off j tail hdrop hc
    have hdropc : buf.drop off = u32LE c ++ (p.flatMap u32LE ++ tail) := by
      simpa [List.flatMap_cons, List.append_assoc] using hdrop
    have hge : 4 ≤ (buf.drop off).length := by
      rw [hdropc]; simp [length_u32LE]
    have hoff : off + 4 ≤ buf.length := by
      have := List.length_drop off buf
      omega
    have hread : readU32 buf off = c := by
      rw [readU32, hdropc, le4_u32LE c _ (hc c (by simp))]
    have hdrop4 : buf.drop (off + 4) = p.flatMap u32LE ++ tail := by
      rw [← List.drop_drop, hdropc, drop4_u32LE]
    have hrest := ih (off + 4) (j + 1) tail hdrop4 (fun x hx => hc x (by simp [hx]))
    show readPointAux buf i off j (p.length + 1) = .ok (c :: p)
    simp only [readPointAux]
    rw [if_neg (by omega)]
    simp [hrest, Except.map, hread]

theorem readPointAux_total (buf : List Nat) (i : Nat) :
    ∀ (rem off j : Nat), off + 4 * rem ≤ buf.length →
      ∃ xs, readPointAux buf i off j rem = .ok xs ∧ xs.length = rem := by
  intro rem
  induction rem with
  | zero => exact fun off j _ => ⟨[], rfl, rfl⟩
  | succ rem ih =>
    intro off j h
    have h4 : ¬ (off + 4 > buf.length) := by omega
    obtain ⟨xs, hxs, hlen⟩ := ih (off + 4) (j + 1) (by omega)
    refine ⟨readU32 buf off :: xs, ?_, by simp [hlen]⟩
    simp only [readPointAux]
    rw [if_neg h4]
    simp [hxs, Except.map]

theorem readVectorsAux_ok (buf : List Nat) (dims : Nat) :
    ∀ (vecs : List VectorRecord) (i off : Nat) (tail : List Nat),
      buf.drop off = binBody vecs ++ tail →
      (∀ r ∈ vecs, r.point.length = dims ∧ r.label < 4294967296 ∧
        ∀ c ∈ r.point, c < 4294967296) →
      readVectorsAux buf dims i off vecs.length = .ok vecs := by
  intro vecs
  induction vecs with
  | nil => intro i off tail _ _; rfl
  | cons r vs ih =>
    intro i off tail hdrop hval
    obtain ⟨hlen, hlab, hcomp⟩ := hval r (by simp)
    have hdropc : buf.drop off
        = u32LE r.label ++ (r.point.flatMap u32LE ++ (binBody vs ++ tail)) := by
      simpa [binBody, List.flatMap_cons, List.append_assoc] using hdrop
    have hge : 4 ≤ (buf.drop off).length := by
      rw [hdropc]; simp [length_u32LE]
    have hoff : off + 4 ≤ buf.length := by
      have := List.length_drop off buf
      omega
    have hread : readU32 buf off = r.label := by
      rw [readU32, hdropc, le4_u32LE _ _ hlab]
    have hdrop4 : buf.drop (off + 4)
        = r.point.flatMap u32LE ++ (binBody vs ++ tail) := by
      rw [← List.drop_drop, hdropc, drop4_u32LE]
    have hpt : readPointAux buf i (off + 4) 0 dims = .ok r.point := by
      rw [← hlen]
      exact readPointAux_ok buf i r.point (off + 4) 0 (binBody vs ++ tail)
        hdrop4 hcomp
    have hdropnext : buf.drop (off + 4 + 4 * dims) = binBody vs ++ tail := by
      rw [← List.drop_drop, hdrop4,
        List.drop_left' (by rw [length_flatMap_u32LE, hlen])]
    have hrest := ih (i + 1) (off + 4 + 4 * dims) tail hdropnext
      (fun x hx => hval x (by simp [hx]))
    show readVectorsAux buf dims i off (vs.length + 1) = .ok (r :: vs)
    simp only [readVectorsAux]
    rw [if_neg (by omega)]
    simp [bind, Except.bind, hpt, hrest, hread]

theorem readVectorsAux_total (buf : List Nat) (dims : Nat) :
    ∀ (rem i off : Nat), off + rem * (4 + 4 * dims) ≤ buf.length →
      ∃ recs, readVectorsAux buf dims i off rem = .ok recs ∧ recs.length = rem := by
  intro rem
  induction rem with
  | zero => exact fun i off _ => ⟨[], rfl, rfl⟩
  | succ rem ih =>
    intro i off h
    rw [Nat.succ_mul] at h
    set a := rem * (4 + 4 * dims) with ha
    have h4 : ¬ (off + 4 > buf.length) := by omega
    obtain ⟨pt, hpt, _⟩ := readPointAux_total buf i dims (off + 4) 0 (by omega)
    obtain ⟨recs, hrecs, hreclen⟩ := ih (i + 1) (off + 4 + 4 * dims) (by omega)
    refine ⟨⟨readU32 buf off, pt⟩ :: recs, ?_, by simp [hreclen]⟩
    simp only [readVectorsAux]
    rw [if_neg h4]
    simp [bind, Except.bind, hpt, hrecs]

theorem readVectorsAux_length (buf : List Nat) (dims : Nat) :
    ∀ (rem i off : Nat) (recs : List VectorRecord),
      readVectorsAux buf dims i off rem = .ok recs → recs.length = rem := by
  intro rem
  induction rem with
  | zero => intro i off recs h; cases h; rfl
  | succ rem ih =>
    intro i off recs h
    simp only [readVectorsAux] at h
    split at h
    · cases h
    · simp only [bind, Except.bind] at h
      cases hp : readPointAux buf i (off + 4) 0 dims with
      | error e => rw [hp] at h; cases h
      | ok pt =>
        rw [hp] at h
        cases hr : readVectorsAux buf dims (i + 1) (off + 4 + 4 * dims) rem with
        | error e => rw [hr] at h; cases h
        | ok rest =>
          rw [hr] at h
          cases h
          simp [ih _ _ _ hr]

theorem saveIndexBinary_ok_length (md : MetaInput) (imax dims : Nat)
    (vecs : List VectorRecord) (bs : List Nat)
    (h : saveIndexBinary md imax dims vecs = .ok bs) :
    bs.length = 40 + vecs.length * (4 + 4 * dims) := by
  simp only [saveIndexBinary, bind, Except.bind] at h
  cases h1 : writeU32 dims with
  | error e => rw [h1] at h; cases h
  | ok l1 =>
  rw [h1] at h
  cases h2 : writeU32 (jsOr md.maxElements imax) with
  | error e => rw [h2] at h; cases h
  | ok l2 =>
  rw [h2] at h
  cases h3 : writeU32 (jsOr md.m 16) with
  | error e => rw [h3] at h; cases h
  | ok l3 =>
  rw [h3] at h
  cases h4 : writeU32 (jsOr md.efConstruction 200) with
  | error e => rw [h4] at h; cases h
  | ok l4 =>
  rw [h4] at h
  cases h5 : writeU32 (jsOr md.randomSeed 100) with
  | error e => rw [h5] at h; cases h
  | ok l5 =>
  rw [h5] at h
  cases h6 : writeU32 vecs.length with
  | error e => rw [h6] at h; cases h
  | ok l6 =>
  rw [h6] at h
  cases hb : encodeVectors dims vecs with
  | error e => rw [hb] at h; cases h
  | ok body =>
  rw [hb] at h
  cases h
  simp [List.length_append, writeU32_ok_length _ _ h1, writeU32_ok_length _ _ h2,
    writeU32_ok_length _ _ h3, writeU32_ok_length _ _ h4, writeU32_ok_length _ _ h5,
    writeU32_ok_length _ _ h6, encodeVectors_ok_length dims vecs body hb,
    List.length_replicate]
  omega

/- ----------------------------------------------------------------
   JSON codec lemmas
   ---------------------------------------------------------------- -/

theorem processVectors_map_valid (dims : Nat) :
    ∀ (vecs : List VectorRecord), (∀ r ∈ vecs, r.point.length = dims) →
      processVectors dims (vecs.map fun r => ⟨.num r.label, .arr r.point⟩)
        = (vecs.map fun r => .add r.label r.point, .ok vecs) := by
  intro vecs
  induction vecs with
  | nil => intro _; rfl
  | cons r vs ih =>
    intro h
    simp only [List.map_cons, processVectors]
    rw [if_pos (h r (by simp))]
    rw [ih (fun x hx => h x (by simp [hx]))]
    simp [Except.map]

theorem processVectors_length (dims : Nat) :
    ∀ (vs : List JsonVector) (ops : List IndexOp) (recs : List VectorRecord),
      processVectors dims vs = (ops, .ok recs) → recs.length = vs.length := by
  intro vs
  induction vs with
  | nil => intro ops recs h; cases h; rfl
  | cons v rest ih =>
    obtain ⟨vl, vp⟩ := v
    cases vl with
    | nonNumeric tag => intro ops recs h; simp [processVectors] at h
    | num l =>
      cases vp with
      | nonArray tag => intro ops recs h; simp [processVectors] at h
      | arr p =>
        intro ops recs h
        by_cases hd : p.length = dims
        · simp only [processVectors, if_pos hd] at h
          have h2 := congrArg Prod.snd h
          simp only at h2
          cases hrec : (processVectors dims rest).2 with
          | error e => rw [hrec] at h2; simp [Except.map] at h2
          | ok recs' =>
            rw [hrec] at h2
            simp only [Except.map, Except.ok.injEq] at h2
            have hih := ih (processVectors dims rest).1 recs' (by rw [← hrec])
            rw [← h2]
            simp [hih]
        · simp only [processVectors, if_neg hd] at h
          simp at h

theorem processVectors_prefix (dims : Nat) :
    ∀ (pre : List VectorRecord) (bad : JsonVector) (rest : List JsonVector),
      (∀ r ∈ pre, r.point.length = dims) → validJVec dims bad = false →
      ∃ e, processVectors dims
          ((pre.map fun r => ⟨.num r.label, .arr r.point⟩) ++ bad :: rest)
        = (pre.map fun r => .add r.label r.point, .error e) := by
  intro pre
  induction pre with
  | nil =>
    intro bad rest _ hbad
    cases hl : bad.label with
    | nonNumeric tag =>
      exact ⟨.invalidLabel, by simp [processVectors, hl]⟩
    | num l =>
      cases hp : bad.point with
      | nonArray tag =>
        exact ⟨.invalidVector dims, by simp [processVectors, hl, hp]⟩
      | arr p =>
        have hne : ¬ (p.length = dims) := by
          intro hcontra
          rw [validJVec, hl, hp] at hbad
          simp [hcontra] at hbad
        exact ⟨.invalidVector dims, by simp [processVectors, hl, hp, hne]⟩
  | cons r pre ih =>
    intro bad rest h hbad
    obtain ⟨e, he⟩ := ih bad rest (fun x hx => h x (by simp [hx])) hbad
    refine ⟨e, ?_⟩
    simp only [List.map_cons, List.cons_append, processVectors,
      if_pos (h r (by simp)), List.append_eq]
    rw [he]
    simp [Except.map]

theorem loadIndexJSON_ok_inv (doc : JsonDoc) (meta : Metadata)
    (recs : List VectorRecord)
    (h : (loadIndexJSON doc).2 = .ok (meta, recs)) :
    ∃ vs, doc.vectors = some vs ∧
      doc.numDimensions = some meta.numDimensions ∧
      doc.spaceName = some meta.spaceName ∧
      meta.maxElements = jsOr doc.maxElements 100 ∧
      meta.m = jsOr doc.m 16 ∧
      meta.efConstruction = jsOr doc.efConstruction 200 ∧
      meta.randomSeed = jsOr doc.randomSeed 100 ∧
      (processVectors meta.numDimensions vs).2 = .ok recs := by
  obtain ⟨ver, osn, odims, omax, om, oef, oseed, onv, ovec⟩ := doc
  cases ovec with
  | none => exact absurd h (by simp [loadIndexJSON])
  | some vs =>
  cases odims with
  | none => exact absurd h (by simp [loadIndexJSON])
  | some dims =>
  simp only [loadIndexJSON] at h
  by_cases h0 : dims = 0
  · rw [if_pos h0] at h; cases h
  · rw [if_neg h0] at h
    cases osn with
    | none => cases h
    | some sn =>
    dsimp only at h
    by_cases hsn : sn = "l2" ∨ sn = "ip" ∨ sn = "cosine"
    · rw [if_pos hsn] at h
      dsimp only at h
      cases hrec : (processVectors dims vs).2 with
      | error e => rw [hrec] at h; cases h
      | ok recs' =>
        rw [hrec] at h
        simp only [Except.map, Except.ok.injEq, Prod.mk.injEq] at h
        obtain ⟨hmeta, hrecs⟩ := h
        subst hmeta
        subst hrecs
        exact ⟨vs, rfl, rfl, rfl, rfl, rfl, rfl, rfl, hrec⟩
    · rw [if_neg hsn] at h; cases h

/- ----------------------------------------------------------------
   Theorems: C3, C4, C5 (text/binary decode behaviour)
   ---------------------------------------------------------------- -/

/-- C3 counterexample: the text decoder accepts `docC3`, which declares
`numVectors = 5` but carries a single vector, and returns one record — the
declared vector count is not compared with the actual number of records on
the text path, refuting the claim for the text form. -/
theorem C3_cex :
    docC3.numVectors = some 5 ∧
    (loadIndexJSON docC3).2 = .ok
      ({ spaceName := "l2", numDimensions := 1, maxElements := 100, m := 16,
         efConstruction := 200, randomSeed := 100 }, [⟨7, [0]⟩]) :=
  ⟨rfl, rfl⟩

/-- C3 (amended): on the binary path the number of decoded records equals
the vector count declared in the header (read at byte offset 22); on the
text path the declared `numVectors` is ignored entirely — the decode result
does not depend on it, and the number of decoded records equals the length
of the document's `vectors` array, whatever count the document declares. -/
theorem C3_count_binary_only :
    (∀ (buf : List Nat) (meta : Metadata) (recs : List VectorRecord),
      loadIndexBinary buf = .ok (meta, recs) → recs.length = readU32 buf 22) ∧
    (∀ (doc : JsonDoc) (n : Option Nat),
      loadIndexJSON { doc with numVectors := n } = loadIndexJSON doc) ∧
    (∀ (doc : JsonDoc) (vs : List JsonVector) (meta : Metadata)
        (recs : List VectorRecord),
      doc.vectors = some vs → (loadIndexJSON doc).2 = .ok (meta, recs) →
      recs.length = vs.length) := by
  refine ⟨?_, ?_, ?_⟩
  · intro buf meta recs h
    unfold loadIndexBinary at h
    by_cases hc1 : buf.length < 40
    · rw [if_pos hc1] at h; cases h
    · rw [if_neg hc1] at h
      dsimp only at h
      by_cases hc2 : byteAt buf 0 ≠ 1
      · rw [if_pos hc2] at h; cases h
      · rw [if_neg hc2] at h
        by_cases hc3 : 1 ≥ buf.length
        · rw [if_pos hc3] at h; cases h
        · rw [if_neg hc3] at h
          by_cases hc4 : 2 + 24 > buf.length
          · rw [if_pos hc4] at h; cases h
          · rw [if_neg hc4] at h
            by_cases hc5 : readU32 buf 2 = 0 ∨ readU32 buf 2 > 100000
            · rw [if_pos hc5] at h; cases h
            · rw [if_neg hc5] at h
              by_cases hc6 : readU32 buf 22 > 100000000
              · rw [if_pos hc6] at h; cases h
              · rw [if_neg hc6] at h
                by_cases hc7 : buf.length
                    < 40 + readU32 buf 22 * (4 + readU32 buf 2 * 4)
                · rw [if_pos hc7] at h; cases h
                · rw [if_neg hc7] at h
                  cases hr : readVectorsAux buf (readU32 buf 2) 0 40
                      (readU32 buf 22) with
                  | error e => rw [hr] at h; cases h
                  | ok recs' =>
                    rw [hr] at h
                    simp only [Except.map, Except.ok.injEq, Prod.mk.injEq] at h
                    rw [← h.2]
                    exact readVectorsAux_length buf (readU32 buf 2) _ 0 40 recs' hr
  · intro doc n
    rfl
  · intro doc vs meta recs hv h
    obtain ⟨vs', hv', _, _, _, _, _, _, hrec⟩ := loadIndexJSON_ok_inv doc meta recs h
    rw [hv] at hv'
    cases hv'
    cases hrec2 : processVectors meta.numDimensions vs with
    | mk ops res =>
      have : res = .ok recs := by
        have := congrArg Prod.snd hrec2
        simp at this
        rw [← this, hrec]
      subst this
      exact processVectors_length meta.numDimensions vs ops recs hrec2

/-- C3 witness: the binary part applied to a valid empty-body buffer whose
header declares zero vectors, and the text part applied to `docC3`. -/
theorem C3_count_binary_only_witness :
    ([] : List VectorRecord).length
        = readU32 ([1, 0] ++ u32LE 1 ++ u32LE 10 ++ u32LE 16 ++ u32LE 200
            ++ u32LE 100 ++ u32LE 0 ++ List.replicate 14 0) 22 ∧
    ([⟨7, [0]⟩] : List VectorRecord).length
        = ([⟨.num 7, .arr [0]⟩] : List JsonVector).length :=
  ⟨C3_count_binary_only.1 _
      { spaceName := "l2", numDimensions := 1, maxElements := 10, m := 16,
        efConstruction := 200, randomSeed := 100 } [] rfl,
   C3_count_binary_only.2.2 docC3 [⟨.num 7, .arr [0]⟩]
      { spaceName := "l2", numDimensions := 1, maxElements := 100, m := 16,
        efConstruction := 200, randomSeed := 100 } [⟨7, [0]⟩] rfl rfl⟩

/-- C4 counterexample: `docC4` has the key `m` present with value `0`, yet
the decoder returns `m = 16`: a present-but-zero value is replaced by the
default, refuting "the document's own values ... whenever those keys are
present". -/
theorem C4_cex :
    docC4.m = some 0 ∧
    (loadIndexJSON docC4).2 = .ok
      ({ spaceName := "l2", numDimensions := 1, maxElements := 10, m := 16,
         efConstruction := 200, randomSeed := 100 }, [⟨0, [5]⟩]) :=
  ⟨rfl, rfl⟩

/-- C4 (amended): for every text document the decoder accepts, the returned
metadata carries the document's own values for `m`, `efConstruction`,
`randomSeed` and `maxElements` whenever those keys are present with a
nonzero value, and the defaults 16, 200, 100 and 100 respectively when the
key is absent or its value is `0` (JavaScript `||` treats both as falsy). -/
theorem C4_defaults_on_falsy (doc : JsonDoc) (meta : Metadata)
    (recs : List VectorRecord) (h : (loadIndexJSON doc).2 = .ok (meta, recs)) :
    meta.m = jsOr doc.m 16 ∧
    meta.efConstruction = jsOr doc.efConstruction 200 ∧
    meta.randomSeed = jsOr doc.randomSeed 100 ∧
    meta.maxElements = jsOr doc.maxElements 100 := by
  obtain ⟨vs, _, _, _, hmax, hm, hef, hseed, _⟩ :=
    loadIndexJSON_ok_inv doc meta recs h
  exact ⟨hm, hef, hseed, hmax⟩

/-- C4 witness: the amended claim applied to `docC4`. -/
theorem C4_defaults_on_falsy_witness :
    ({ spaceName := "l2", numDimensions := 1, maxElements := 10, m := 16,
       efConstruction := 200, randomSeed := 100 } : Metadata).m
        = jsOr docC4.m 16 ∧
    ({ spaceName := "l2", numDimensions := 1, maxElements := 10, m := 16,
       efConstruction := 200, randomSeed := 100 } : Metadata).efConstruction
        = jsOr docC4.efConstruction 200 ∧
    ({ spaceName := "l2", numDimensions := 1, maxElements := 10, m := 16,
       efConstruction := 200, randomSeed := 100 } : Metadata).randomSeed
        = jsOr docC4.randomSeed 100 ∧
    ({ spaceName := "l2", numDimensions := 1, maxElements := 10, m := 16,
       efConstruction := 200, randomSeed := 100 } : Metadata).maxElements
        = jsOr docC4.maxElements 100 :=
  C4_defaults_on_falsy docC4 _ [⟨0, [5]⟩] rfl

/-- C5 counterexample: decoding `docC5`, whose second record has a
non-numeric label, fails — but only after the index was created,
initialized, and the first record inserted, refuting "all parsing and
validation completes before any index is created or any record is
inserted". -/
theorem C5_cex :
    loadIndexJSON docC5 =
      ([.create "l2" 1, .init 100 16 200 100, .add 7 [0]],
       .error .invalidLabel) :=
  rfl

/-- C5 (amended): for a text document whose top-level structure passes the
checks (`vectors` array, nonzero `numDimensions`, canonical `spaceName`)
but whose vector list is some valid records followed by an invalid one,
decode fails, yet the target index has already been created and initialized
and every record preceding the invalid one has already been inserted:
only top-level structural validation precedes index construction, while
per-record validation is interleaved with insertion. -/
theorem C5_validation_interleaved (doc : JsonDoc) (dims : Nat) (sn : String)
    (pre : List VectorRecord) (bad : JsonVector) (rest : List JsonVector)
    (hv : doc.vectors
      = some ((pre.map fun r => ⟨.num r.label, .arr r.point⟩) ++ bad :: rest))
    (hd : doc.numDimensions = some dims) (h0 : dims ≠ 0)
    (hs : doc.spaceName = some sn)
    (hsn : sn = "l2" ∨ sn = "ip" ∨ sn = "cosine")
    (hpre : ∀ r ∈ pre, r.point.length = dims)
    (hbad : validJVec dims bad = false) :
    ∃ e, loadIndexJSON doc =
      (.create sn dims :: .init (jsOr doc.maxElements 100) (jsOr doc.m 16)
          (jsOr doc.efConstruction 200) (jsOr doc.randomSeed 100)
        :: pre.map (fun r => .add r.label r.point),
       .error e) := by
  obtain ⟨e, he⟩ := processVectors_prefix dims pre bad rest hpre hbad
  refine ⟨e, ?_⟩
  unfold loadIndexJSON
  rw [hv, hd, hs]
  dsimp only
  rw [if_neg h0, if_pos hsn]
  rw [he]
  simp [Except.map]

/-- C5 witness: the amended claim applied to `docC5`. -/
theorem C5_validation_interleaved_witness :
    ∃ e, loadIndexJSON docC5 =
      (.create "l2" 1 :: .init (jsOr docC5.maxElements 100) (jsOr docC5.m 16)
          (jsOr docC5.efConstruction 200) (jsOr docC5.randomSeed 100)
        :: ([⟨7, [0]⟩] : List VectorRecord).map (fun r => .add r.label r.point),
       .error e) :=
  C5_validation_interleaved docC5 1 "l2" [⟨7, [0]⟩]
    ⟨.nonNumeric "string", .arr [1]⟩ [] rfl rfl (by decide) rfl
    (Or.inl rfl) (by decide) rfl

/- ----------------------------------------------------------------
   Theorems: C6, C7, C8 (binary header handling)
   ---------------------------------------------------------------- -/

/-- C6: if the binary header passes the length, version, numDimensions,
numVectors and size checks but the space-kind code byte is outside
`{0, 1, 2}`, decode succeeds and the returned metadata's space name is
`"l2"` — the out-of-range code is not rejected. -/
theorem C6_unknown_space_code_is_l2 (buf : List Nat)
    (hlen : 40 ≤ buf.length) (hver : byteAt buf 0 = 1)
    (hcode : byteAt buf 1 ≠ 0 ∧ byteAt buf 1 ≠ 1 ∧ byteAt buf 1 ≠ 2)
    (hd0 : readU32 buf 2 ≠ 0) (hdle : readU32 buf 2 ≤ 100000)
    (hnv : readU32 buf 22 ≤ 100000000)
    (hsz : 40 + readU32 buf 22 * (4 + readU32 buf 2 * 4) ≤ buf.length) :
    ∃ recs, loadIndexBinary buf
      = .ok ({ spaceName := "l2", numDimensions := readU32 buf 2,
               maxElements := readU32 buf 6, m := readU32 buf 10,
               efConstruction := readU32 buf 14,
               randomSeed := readU32 buf 18 }, recs) := by
  obtain ⟨hc0, hc1, hc2⟩ := hcode
  obtain ⟨recs, hrecs, _⟩ :=
    readVectorsAux_total buf (readU32 buf 2) (readU32 buf 22) 0 40
      (by rw [Nat.mul_comm 4 (readU32 buf 2)]; exact hsz)
  refine ⟨recs, ?_⟩
  unfold loadIndexBinary
  rw [if_neg (by omega)]
  dsimp only
  rw [if_neg (by simp [hver]), if_neg (by omega), if_neg (by omega),
    if_neg hc0, if_neg hc1, if_neg hc2,
    if_neg (not_or.mpr ⟨hd0, by omega⟩), if_neg (by omega),
    if_neg (by omega), hrecs]
  simp [Except.map]

/-- C6 witness: a 40-byte buffer with space code 7 and zero vectors. -/
theorem C6_unknown_space_code_is_l2_witness :
    ∃ recs,
      loadIndexBinary ([1, 7] ++ u32LE 1 ++ u32LE 10 ++ u32LE 16 ++ u32LE 200
          ++ u32LE 100 ++ u32LE 0 ++ List.replicate 14 0)
        = .ok ({ spaceName := "l2",
                 numDimensions := readU32 ([1, 7] ++ u32LE 1 ++ u32LE 10
                   ++ u32LE 16 ++ u32LE 200 ++ u32LE 100 ++ u32LE 0
                   ++ List.replicate 14 0) 2,
                 maxElements := readU32 ([1, 7] ++ u32LE 1 ++ u32LE 10
                   ++ u32LE 16 ++ u32LE 200 ++ u32LE 100 ++ u32LE 0
                   ++ List.replicate 14 0) 6,
                 m := readU32 ([1, 7] ++ u32LE 1 ++ u32LE 10 ++ u32LE 16
                   ++ u32LE 200 ++ u32LE 100 ++ u32LE 0
                   ++ List.replicate 14 0) 10,
                 efConstruction := readU32 ([1, 7] ++ u32LE 1 ++ u32LE 10
                   ++ u32LE 16 ++ u32LE 200 ++ u32LE 100 ++ u32LE 0
                   ++ List.replicate 14 0) 14,
                 randomSeed := readU32 ([1, 7] ++ u32LE 1 ++ u32LE 10
                   ++ u32LE 16 ++ u32LE 200 ++ u32LE 100 ++ u32LE 0
                   ++ List.replicate 14 0) 18 }, recs) :=
  C6_unknown_space_code_is_l2 _ (by decide) (by decide)
    ⟨by decide, by decide, by decide⟩ (by decide) (by decide) (by decide)
    (by decide)

/-- C7: every successful binary encode of `numVectors` records of dimension
`numDimensions` produces exactly
`40 + numVectors * (4 + 4*numDimensions)` bytes. -/
theorem C7_encoded_size (metadata : MetaInput)
    (indexMaxElements numDimensions : Nat) (vectors : List VectorRecord)
    (bs : List Nat)
    (h : saveIndexBinary metadata indexMaxElements numDimensions vectors
      = .ok bs) :
    bs.length = 40 + vectors.length * (4 + 4 * numDimensions) :=
  saveIndexBinary_ok_length metadata indexMaxElements numDimensions vectors bs h

/-- C7 witness: encoding three records of dimension three (unit vectors,
components given as binary32 bit patterns of 1.0 and 0.0) produces exactly
88 bytes. -/
theorem C7_encoded_size_witness :
    ((saveIndexBinary ⟨some "l2", some 10, some 16, some 200, some 100⟩ 10 3
        [⟨0, [1065353216, 0, 0]⟩, ⟨1, [0, 1065353216, 0]⟩,
         ⟨2, [0, 0, 1065353216]⟩]).toOption.getD []).length = 88 := by
  have h := C7_encoded_size ⟨some "l2", some 10, some 16, some 200, some 100⟩
    10 3 [⟨0, [1065353216, 0, 0]⟩, ⟨1, [0, 1065353216, 0]⟩,
          ⟨2, [0, 0, 1065353216]⟩]
    ((saveIndexBinary ⟨some "l2", some 10, some 16, some 200, some 100⟩ 10 3
        [⟨0, [1065353216, 0, 0]⟩, ⟨1, [0, 1065353216, 0]⟩,
         ⟨2, [0, 0, 1065353216]⟩]).toOption.getD [])
    (by rfl)
  exact h.trans (by decide)

/-- C8: a binary buffer of length at least 40 whose header is valid
(version 1, `numDimensions` and `numVectors` in range) but whose total
length is below `40 + numVectors * (4 + 4*numDimensions)` is rejected with
the size-mismatch error, before any record is read. -/
theorem C8_truncated_fails (buf : List Nat) (hlen : 40 ≤ buf.length)
    (hver : byteAt buf 0 = 1) (hd0 : readU32 buf 2 ≠ 0)
    (hdle : readU32 buf 2 ≤ 100000) (hnv : readU32 buf 22 ≤ 100000000)
    (hsz : buf.length < 40 + readU32 buf 22 * (4 + readU32 buf 2 * 4)) :
    loadIndexBinary buf
      = .error (.sizeMismatch
          (40 + readU32 buf 22 * (4 + readU32 buf 2 * 4)) buf.length) := by
  unfold loadIndexBinary
  rw [if_neg (by omega)]
  dsimp only
  rw [if_neg (by simp [hver]), if_neg (by omega), if_neg (by omega),
    if_neg (not_or.mpr ⟨hd0, by omega⟩), if_neg (by omega), if_pos hsz]

/-- C8 witness: a 40-byte buffer declaring one vector of dimension one
(expected size 48) fails with the size-mismatch error. -/
theorem C8_truncated_fails_witness :
    loadIndexBinary ([1, 0] ++ u32LE 1 ++ u32LE 10 ++ u32LE 16 ++ u32LE 200
        ++ u32LE 100 ++ u32LE 1 ++ List.replicate 14 0)
      = .error (.sizeMismatch 48 40) := by
  have h := C8_truncated_fails ([1, 0] ++ u32LE 1 ++ u32LE 10 ++ u32LE 16
      ++ u32LE 200 ++ u32LE 100 ++ u32LE 1 ++ List.replicate 14 0)
    (by decide) (by decide) (by decide) (by decide) (by decide) (by decide)
  exact h.trans rfl

/- ----------------------------------------------------------------
   Round-trip lemmas
   ---------------------------------------------------------------- -/

theorem saveLoadJSON_roundtrip (sn : String)
    (dims maxE m ef seed idxMax : Nat) (vecs : List VectorRecord)
    (hsn : sn = "l2" ∨ sn = "ip" ∨ sn = "cosine") (hd0 : dims ≠ 0)
    (hpt : ∀ r ∈ vecs, r.point.length = dims)
    (hmax : maxE ≠ 0) (hm : m ≠ 0) (hef : ef ≠ 0) (hseed : seed ≠ 0) :
    (loadIndexJSON (saveIndexJSON ⟨some sn, some maxE, some m, some ef,
        some seed⟩ idxMax dims vecs)).2
      = .ok (⟨sn, dims, maxE, m, ef, seed⟩, vecs) := by
  have hsnne : sn ≠ "" := by rcases hsn with h | h | h <;> simp [h]
  have e1 : jsOrStr (some sn) "l2" = sn := by simp [jsOrStr, hsnne]
  have e2 : jsOr (some maxE) idxMax = maxE := by simp [jsOr, hmax]
  have e2b : jsOr (some maxE) 100 = maxE := by simp [jsOr, hmax]
  have e3 : jsOr (some m) 16 = m := by simp [jsOr, hm]
  have e4 : jsOr (some ef) 200 = ef := by simp [jsOr, hef]
  have e5 : jsOr (some seed) 100 = seed := by simp [jsOr, hseed]
  unfold saveIndexJSON loadIndexJSON
  dsimp only
  rw [e1, e2, e2b, e3, e4, e5]
  rw [if_neg hd0, if_pos hsn]
  rw [processVectors_map_valid dims vecs hpt]
  simp [Except.map]
  exact ⟨e3, e4, e5⟩

theorem saveIndexBinary_ok_concat (sn : String)
    (dims maxE m ef seed idxMax : Nat) (vecs : List VectorRecord)
    (hsnne : sn ≠ "") (hd32 : dims < 4294967296)
    (hnv32 : vecs.length < 4294967296)
    (hmax : maxE ≠ 0) (hmax32 : maxE < 4294967296)
    (hm : m ≠ 0) (hm32 : m < 4294967296)
    (hef : ef ≠ 0) (hef32 : ef < 4294967296)
    (hseed : seed ≠ 0) (hseed32 : seed < 4294967296)
    (hpt : ∀ r ∈ vecs, r.point.length = dims)
    (hlab : ∀ r ∈ vecs, r.label < 4294967296)
    (hfin : ∀ r ∈ vecs, ∀ c ∈ r.point, isFiniteBits c = true) :
    saveIndexBinary ⟨some sn, some maxE, some m, some ef, some seed⟩
        idxMax dims vecs
      = .ok ([1, spaceCode sn] ++ u32LE dims ++ u32LE maxE ++ u32LE m
          ++ u32LE ef ++ u32LE seed ++ u32LE vecs.length
          ++ List.replicate 14 0 ++ binBody vecs) := by
  have e1 : jsOrStr (some sn) "l2" = sn := by simp [jsOrStr, hsnne]
  have e2 : jsOr (some maxE) idxMax = maxE := by simp [jsOr, hmax]
  have e3 : jsOr (some m) 16 = m := by simp [jsOr, hm]
  have e4 : jsOr (some ef) 200 = ef := by simp [jsOr, hef]
  have e5 : jsOr (some seed) 100 = seed := by simp [jsOr, hseed]
  unfold saveIndexBinary
  dsimp only
  rw [e1, e2, e3, e4, e5]
  rw [writeU32_ok dims hd32, writeU32_ok maxE hmax32, writeU32_ok m hm32,
    writeU32_ok ef hef32, writeU32_ok seed hseed32,
    writeU32_ok vecs.length hnv32,
    encodeVectors_ok dims vecs (fun r hr => ⟨hpt r hr, hlab r hr, hfin r hr⟩)]
  simp [bind, Except.bind]

theorem loadIndexBinary_concat (code dims maxE m ef seed : Nat)
    (vecs : List VectorRecord)
    (hd0 : dims ≠ 0) (hdle : dims ≤ 100000) (hnv : vecs.length ≤ 100000000)
    (hmax32 : maxE < 4294967296) (hm32 : m < 4294967296)
    (hef32 : ef < 4294967296) (hseed32 : seed < 4294967296)
    (hpt : ∀ r ∈ vecs, r.point.length = dims)
    (hlab : ∀ r ∈ vecs, r.label < 4294967296)
    (hcomp : ∀ r ∈ vecs, ∀ c ∈ r.point, c < 4294967296) :
    loadIndexBinary ([1, code] ++ u32LE dims ++ u32LE maxE ++ u32LE m
        ++ u32LE ef ++ u32LE seed ++ u32LE vecs.length
        ++ List.replicate 14 0 ++ binBody vecs)
      = .ok (⟨if code = 0 then "l2" else if code = 1 then "ip"
              else if code = 2 then "cosine" else "l2",
             dims, maxE, m, ef, seed⟩, vecs) := by
  set buf := [1, code] ++ u32LE dims ++ u32LE maxE ++ u32LE m ++ u32LE ef
      ++ u32LE seed ++ u32LE vecs.length ++ List.replicate 14 0
      ++ binBody vecs with hbuf
  have hd32 : dims < 4294967296 := by omega
  have hnv32 : vecs.length < 4294967296 := by omega
  have hb0 : byteAt buf 0 = 1 := by rw [hbuf]; rfl
  have hb1 : byteAt buf 1 = code := by rw [hbuf]; rfl
  have d2 : buf.drop 2 = u32LE dims ++ (u32LE maxE ++ (u32LE m ++ (u32LE ef
      ++ (u32LE seed ++ (u32LE vecs.length ++ (List.replicate 14 0
      ++ binBody vecs)))))) := by rw [hbuf]; rfl
  have r2 : readU32 buf 2 = dims := by
    rw [readU32, d2]; exact le4_u32LE _ _ hd32
  have d6 : buf.drop 6 = u32LE maxE ++ (u32LE m ++ (u32LE ef ++ (u32LE seed
      ++ (u32LE vecs.length ++ (List.replicate 14 0 ++ binBody vecs))))) := by
    rw [show (6 : Nat) = 2 + 4 from rfl, ← List.drop_drop, d2, drop4_u32LE]
  have r6 : readU32 buf 6 = maxE := by
    rw [readU32, d6]; exact le4_u32LE _ _ hmax32
  have d10 : buf.drop 10 = u32LE m ++ (u32LE ef ++ (u32LE seed
      ++ (u32LE vecs.length ++ (List.replicate 14 0 ++ binBody vecs)))) := by
    rw [show (10 : Nat) = 6 + 4 from rfl, ← List.drop_drop, d6, drop4_u32LE]
  have r10 : readU32 buf 10 = m := by
    rw [readU32, d10]; exact le4_u32LE _ _ hm32
  have d14 : buf.drop 14 = u32LE ef ++ (u32LE seed ++ (u32LE vecs.length
      ++ (List.replicate 14 0 ++ binBody vecs))) := by
    rw [show (14 : Nat) = 10 + 4 from rfl, ← List.drop_drop, d10, drop4_u32LE]
  have r14 : readU32 buf 14 = ef := by
    rw [readU32, d14]; exact le4_u32LE _ _ hef32
  have d18 : buf.drop 18 = u32LE seed ++ (u32LE vecs.length
      ++ (List.replicate 14 0 ++ binBody vecs)) := by
    rw [show (18 : Nat) = 14 + 4 from rfl, ← List.drop_drop, d14, drop4_u32LE]
  have r18 : readU32 buf 18 = seed := by
    rw [readU32, d18]; exact le4_u32LE _ _ hseed32
  have d22 : buf.drop 22 = u32LE vecs.length
      ++ (List.replicate 14 0 ++ binBody vecs) := by
    rw [show (22 : Nat) = 18 + 4 from rfl, ← List.drop_drop, d18, drop4_u32LE]
  have r22 : readU32 buf 22 = vecs.length := by
    rw [readU32, d22]; exact le4_u32LE _ _ hnv32
  have d26 : buf.drop 26 = List.replicate 14 0 ++ binBody vecs := by
    rw [show (26 : Nat) = 22 + 4 from rfl, ← List.drop_drop, d22, drop4_u32LE]
  have d40 : buf.drop 40 = binBody vecs := by
    rw [show (40 : Nat) = 26 + 14 from rfl, ← List.drop_drop, d26]
    rfl
  have hlen : buf.length = 40 + vecs.length * (4 + 4 * dims) := by
    rw [hbuf]
    simp [List.length_append, length_u32LE, List.length_replicate,
      binBody_length dims vecs hpt]
    ring
  have hlen40 : 40 ≤ buf.length := by rw [hlen]; exact Nat.le_add_right _ _
  have hvecs40 : readVectorsAux buf dims 0 40 vecs.length = .ok vecs :=
    readVectorsAux_ok buf dims vecs 0 40 []
      (by rw [List.append_nil]; exact d40)
      (fun r hr => ⟨hpt r hr, hlab r hr, hcomp r hr⟩)
  unfold loadIndexBinary
  rw [if_neg (by omega)]
  dsimp only
  rw [if_neg (by simp [hb0]), if_neg (by omega), if_neg (by omega)]
  simp only [hb1, r2, r6, r10, r14, r18, r22]
  rw [if_neg (not_or.mpr ⟨hd0, by omega⟩), if_neg (by omega),
    if_neg (by rw [hlen, Nat.mul_comm dims 4]; exact Nat.lt_irrefl _),
    hvecs40]
  simp [Except.map]

theorem saveLoadBinary_roundtrip (sn : String)
    (dims maxE m ef seed idxMax : Nat) (vecs : List VectorRecord)
    (hsn : sn = "l2" ∨ sn = "ip" ∨ sn = "cosine")
    (hd0 : dims ≠ 0) (hdle : dims ≤ 100000) (hnv : vecs.length ≤ 100000000)
    (hmax : maxE ≠ 0) (hmax32 : maxE < 4294967296)
    (hm : m ≠ 0) (hm32 : m < 4294967296)
    (hef : ef ≠ 0) (hef32 : ef < 4294967296)
    (hseed : seed ≠ 0) (hseed32 : seed < 4294967296)
    (hpt : ∀ r ∈ vecs, r.point.length = dims)
    (hlab : ∀ r ∈ vecs, r.label < 4294967296)
    (hcomp : ∀ r ∈ vecs, ∀ c ∈ r.point, c < 4294967296 ∧ isFiniteBits c = true) :
    ∃ buf, saveIndexBinary ⟨some sn, some maxE, some m, some ef, some seed⟩
        idxMax dims vecs = .ok buf ∧
      loadIndexBinary buf = .ok (⟨sn, dims, maxE, m, ef, seed⟩, vecs) := by
  have hsnne : sn ≠ "" := by rcases hsn with h | h | h <;> simp [h]
  refine ⟨_, saveIndexBinary_ok_concat sn dims maxE m ef seed idxMax vecs
    hsnne (by omega) (by omega) hmax hmax32 hm hm32 hef hef32 hseed hseed32
    hpt hlab (fun r hr c hc => (hcomp r hr c hc).2), ?_⟩
  have h := loadIndexBinary_concat (spaceCode sn) dims maxE m ef seed vecs
    hd0 hdle hnv hmax32 hm32 hef32 hseed32 hpt hlab
    (fun r hr c hc => (hcomp r hr c hc).1)
  rcases hsn with h1 | h1 | h1 <;> subst h1 <;> simpa [spaceCode] using h

/- ----------------------------------------------------------------
   Theorem: C1 (round trip)
   ---------------------------------------------------------------- -/

/-- C1 counterexample: the metadata with `m = 0` (a valid u32 per the data
model) does not survive the round trip — the JavaScript `||` defaulting
replaces the present value `0` by 16 at encode time, so the decoded pair
differs from the input's; hence round-tripping does not hold for every
valid pair with `1 ≤ numDimensions ≤ 100000` and matching point lengths. -/
theorem C1_cex :
    (loadIndexJSON (saveIndexJSON (metaToInput
        { spaceName := "l2", numDimensions := 1, maxElements := 10, m := 0,
          efConstruction := 200, randomSeed := 100 }) 10 1 [⟨0, [5]⟩])).2
      = .ok ({ spaceName := "l2", numDimensions := 1, maxElements := 10,
               m := 16, efConstruction := 200, randomSeed := 100 },
             [⟨0, [5]⟩]) ∧
    ({ spaceName := "l2", numDimensions := 1, maxElements := 10, m := 16,
       efConstruction := 200, randomSeed := 100 } : Metadata)
      ≠ { spaceName := "l2", numDimensions := 1, maxElements := 10, m := 0,
          efConstruction := 200, randomSeed := 100 } :=
  ⟨rfl, by decide⟩

/-- C1 (amended): for every valid pair of full metadata and records —
`1 ≤ numDimensions ≤ 100000`, at most `100000000` records (the data model's
vector-count bound), u32 labels, point components that are finite binary32
bit patterns, every point of length `numDimensions`, canonical space name,
and the four optional u32 fields `maxElements`, `m`, `efConstruction`,
`randomSeed` nonzero (JavaScript `||` defaulting erases zero values) —
decoding the encoding returns exactly the same metadata and the same
records, for both the text codec and the binary codec (components compared
as binary32 bit patterns, i.e. at 32-bit float precision). -/
theorem C1_roundtrip (meta : Metadata) (idxMax : Nat)
    (vecs : List VectorRecord)
    (hsn : meta.spaceName = "l2" ∨ meta.spaceName = "ip"
      ∨ meta.spaceName = "cosine")
    (hd0 : 1 ≤ meta.numDimensions) (hdle : meta.numDimensions ≤ 100000)
    (hnv : vecs.length ≤ 100000000)
    (hpt : ∀ r ∈ vecs, r.point.length = meta.numDimensions)
    (hlab : ∀ r ∈ vecs, r.label < 4294967296)
    (hcomp : ∀ r ∈ vecs, ∀ c ∈ r.point,
      c < 4294967296 ∧ isFiniteBits c = true)
    (hmax : meta.maxElements ≠ 0) (hmax32 : meta.maxElements < 4294967296)
    (hm : meta.m ≠ 0) (hm32 : meta.m < 4294967296)
    (hef : meta.efConstruction ≠ 0)
    (hef32 : meta.efConstruction < 4294967296)
    (hseed : meta.randomSeed ≠ 0) (hseed32 : meta.randomSeed < 4294967296) :
    (loadIndexJSON (saveIndexJSON (metaToInput meta) idxMax
        meta.numDimensions vecs)).2 = .ok (meta, vecs) ∧
    ∃ buf, saveIndexBinary (metaToInput meta) idxMax meta.numDimensions vecs
        = .ok buf ∧
      loadIndexBinary buf = .ok (meta, vecs) := by
  obtain ⟨sn, dims, maxE, m, ef, seed⟩ := meta
  exact ⟨saveLoadJSON_roundtrip sn dims maxE m ef seed idxMax vecs hsn
      (Nat.one_le_iff_ne_zero.mp hd0) hpt hmax hm hef hseed,
    saveLoadBinary_roundtrip sn dims maxE m ef seed idxMax vecs hsn
      (Nat.one_le_iff_ne_zero.mp hd0) hdle hnv hmax hmax32 hm hm32 hef hef32
      hseed hseed32 hpt hlab hcomp⟩

/-- C1 witness: the amended round trip applied to one record of dimension
one with component 1.0 (bit pattern 1065353216). -/
theorem C1_roundtrip_witness :
    (loadIndexJSON (saveIndexJSON (metaToInput
        { spaceName := "l2", numDimensions := 1, maxElements := 10, m := 16,
          efConstruction := 200, randomSeed := 100 }) 10 1
        [⟨3, [1065353216]⟩])).2
      = .ok ({ spaceName := "l2", numDimensions := 1, maxElements := 10,
               m := 16, efConstruction := 200, randomSeed := 100 },
             [⟨3, [1065353216]⟩]) ∧
    ∃ buf, saveIndexBinary (metaToInput
        { spaceName := "l2", numDimensions := 1, maxElements := 10, m := 16,
          efConstruction := 200, randomSeed := 100 }) 10 1
        [⟨3, [1065353216]⟩] = .ok buf ∧
      loadIndexBinary buf
        = .ok ({ spaceName := "l2", numDimensions := 1, maxElements := 10,
                 m := 16, efConstruction := 200, randomSeed := 100 },
               [⟨3, [1065353216]⟩]) :=
  C1_roundtrip
    { spaceName := "l2", numDimensions := 1, maxElements := 10, m := 16,
      efConstruction := 200, randomSeed := 100 } 10 [⟨3, [1065353216]⟩]
    (Or.inl rfl) (by decide) (by decide) (by decide) (by decide) (by decide)
    (by decide) (by decide) (by decide) (by decide) (by decide) (by decide)
    (by decide) (by decide) (by decide)

/- ----------------------------------------------------------------
   Prefix-stability lemmas (for C9)
   ---------------------------------------------------------------- -/

theorem getD_take (l : List Nat) (k i d : Nat) (h : i < k) :
    (l.take k).getD i d = l.getD i d := by
  simp [List.getD_eq_getElem?_getD, List.getElem?_take, h]

theorem getD_drop (l : List Nat) (off i d : Nat) :
    (l.drop off).getD i d = l.getD (off + i) d := by
  simp [List.getD_eq_getElem?_getD, List.getElem?_drop]

theorem byteAt_take (buf : List Nat) (N off : Nat) (h : off < N) :
    byteAt (buf.take N) off = byteAt buf off :=
  getD_take buf N off 0 h

theorem readU32_take (buf : List Nat) (N off : Nat) (h : off + 4 ≤ N) :
    readU32 (buf.take N) off = readU32 buf off := by
  unfold readU32 le4
  simp only [getD_drop]
  rw [getD_take buf N (off + 0) 0 (by omega),
    getD_take buf N (off + 1) 0 (by omega),
    getD_take buf N (off + 2) 0 (by omega),
    getD_take buf N (off + 3) 0 (by omega)]

theorem readPointAux_take (buf : List Nat) (N i : Nat) (hN : N ≤ buf.length) :
    ∀ (rem off j : Nat), off + 4 * rem ≤ N →
      readPointAux (buf.take N) i off j rem = readPointAux buf i off j rem := by
  intro rem
  induction rem with
  | zero => intro off j _; rfl
  | succ rem ih =>
    intro off j h
    have hlen : (buf.take N).length = N := by
      rw [List.length_take]; exact Nat.min_eq_left hN
    simp only [readPointAux]
    rw [hlen]
    rw [if_neg (by omega), if_neg (by omega)]
    rw [ih (off + 4) (j + 1) (by omega), readU32_take buf N off (by omega)]

theorem readVectorsAux_take (buf : List Nat) (N dims : Nat)
    (hN : N ≤ buf.length) :
    ∀ (rem i off : Nat), off + rem * (4 + 4 * dims) ≤ N →
      readVectorsAux (buf.take N) dims i off rem
        = readVectorsAux buf dims i off rem := by
  intro rem
  induction rem with
  | zero => intro i off _; rfl
  | succ rem ih =>
    intro i off h
    rw [Nat.succ_mul] at h
    set a := rem * (4 + 4 * dims) with ha
    have hlen : (buf.take N).length = N := by
      rw [List.length_take]; exact Nat.min_eq_left hN
    simp only [readVectorsAux]
    rw [hlen]
    rw [if_neg (by omega), if_neg (by omega)]
    rw [readPointAux_take buf N i hN dims (off + 4) 0 (by omega)]
    rw [ih (i + 1) (off + 4 + 4 * dims) (by omega)]
    rw [readU32_take buf N off (by omega)]

theorem loadIndexBinary_take (buf : List Nat) (N : Nat)
    (h40 : 40 ≤ N) (hNle : N ≤ buf.length)
    (hexp : 40 + readU32 buf 22 * (4 + readU32 buf 2 * 4) ≤ N) :
    loadIndexBinary (buf.take N) = loadIndexBinary buf := by
  have hlen : (buf.take N).length = N := by
    rw [List.length_take]; exact Nat.min_eq_left hNle
  have hb0 := byteAt_take buf N 0 (by omega)
  have hb1 := byteAt_take buf N 1 (by omega)
  have r2 := readU32_take buf N 2 (by omega)
  have r6 := readU32_take buf N 6 (by omega)
  have r10 := readU32_take buf N 10 (by omega)
  have r14 := readU32_take buf N 14 (by omega)
  have r18 := readU32_take buf N 18 (by omega)
  have r22 := readU32_take buf N 22 (by omega)
  unfold loadIndexBinary
  rw [hlen]
  simp only [hb0, hb1, r2, r6, r10, r14, r18, r22]
  set a := readU32 buf 22 * (4 + readU32 buf 2 * 4) with ha
  rw [if_neg (show ¬ N < 40 by omega),
    if_neg (show ¬ buf.length < 40 by omega)]
  by_cases hver : byteAt buf 0 ≠ 1
  · rw [if_pos hver, if_pos hver]
  · rw [if_neg hver, if_neg hver]
    rw [if_neg (show ¬ 1 ≥ N by omega),
      if_neg (show ¬ 1 ≥ buf.length by omega)]
    rw [if_neg (show ¬ 2 + 24 > N by omega),
      if_neg (show ¬ 2 + 24 > buf.length by omega)]
    by_cases hdims : readU32 buf 2 = 0 ∨ readU32 buf 2 > 100000
    · rw [if_pos hdims, if_pos hdims]
    · rw [if_neg hdims, if_neg hdims]
      by_cases hnv : readU32 buf 22 > 100000000
      · rw [if_pos hnv, if_pos hnv]
      · rw [if_neg hnv, if_neg hnv]
        rw [if_neg (show ¬ N < 40 + a by omega),
          if_neg (show ¬ buf.length < 40 + a by omega)]
        rw [readVectorsAux_take buf N (readU32 buf 2) hNle (readU32 buf 22)
          0 40 (by rw [Nat.mul_comm 4 (readU32 buf 2)]; omega)]

/- ----------------------------------------------------------------
   Theorem: C9 (trailing bytes ignored)
   ---------------------------------------------------------------- -/

/-- C9: when a binary buffer is strictly longer than the expected size
`40 + numVectors * (4 + 4*numDimensions)` computed from its own header and
its prefix of expected size decodes successfully, decoding the whole buffer
succeeds with exactly the same result: trailing bytes are ignored, not
rejected. -/
theorem C9_trailing_ignored (buf : List Nat)
    (r : Metadata × List VectorRecord)
    (hlen : expectedSizeOf buf < buf.length)
    (hok : loadIndexBinary (buf.take (expectedSizeOf buf)) = .ok r) :
    loadIndexBinary buf = .ok r := by
  rw [← loadIndexBinary_take buf (expectedSizeOf buf)
    (Nat.le_add_right 40 _) (Nat.le_of_lt hlen) (Nat.le_refl _)]
  exact hok

/-- C9 witness: a valid zero-vector buffer with one trailing junk byte. -/
theorem C9_trailing_ignored_witness :
    loadIndexBinary ([1, 0] ++ u32LE 1 ++ u32LE 10 ++ u32LE 16 ++ u32LE 200
        ++ u32LE 100 ++ u32LE 0 ++ List.replicate 14 0 ++ [99])
      = .ok ({ spaceName := "l2", numDimensions := 1, maxElements := 10,
               m := 16, efConstruction := 200, randomSeed := 100 }, []) :=
  C9_trailing_ignored _ _ (by decide) rfl
